import Mathlib

/-!
# Verification of the ChillDKG reference implementation (`chilldkg_ref/chilldkg.py`)

This file gives a shallow embedding of the ChillDKG orchestrator module
(`src/python/chilldkg_ref/chilldkg.py`) and proves properties of it.

The module under verification imports cryptographic collaborators
(`secp256k1ref`, the VSS layer, and the EncPedPop layer) that are external to
the file: following the specification, these are treated as abstract
primitives, collected in a `Prims` record over which the embedded functions
are parameterised.  Byte strings are modelled as `List Nat`, fallible Python
functions as `Except Error`, and Python integers as `Nat` with explicit
modular reduction where the source reduces.
-/

set_option maxRecDepth 100000

namespace ChillDKG

/-- Decidable equality for `Except`, so that concrete runs of the embedded
functions can be checked by `decide`. -/
instance {ε α : Type} [DecidableEq ε] [DecidableEq α] : DecidableEq (Except ε α) :=
  fun a b =>
    match a, b with
    | .ok x, .ok y =>
      if h : x = y then .isTrue (by rw [h]) else .isFalse (by simp [h])
    | .error x, .error y =>
      if h : x = y then .isTrue (by rw [h]) else .isFalse (by simp [h])
    | .ok _, .error _ => .isFalse (by simp)
    | .error _, .ok _ => .isFalse (by simp)

/-- Byte strings (Python `bytes`) are lists of byte values. -/
abbrev Bytes := List Nat

/-- `be k n` is `n.to_bytes(k, byteorder="big")`: the `k`-byte big-endian
encoding of `n` (truncating to `n % 256^k`; call sites that can overflow
guard explicitly, mirroring Python's `OverflowError`). -/
def be : Nat → Nat → Bytes
  | 0, _ => []
  | k + 1, n => be k (n / 256) ++ [n % 256]

/-- `from_bytes b` is `int.from_bytes(b, byteorder="big")`. -/
def from_bytes (b : Bytes) : Nat := b.foldl (fun a x => a * 256 + x) 0

/-- The order of the secp256k1 group (`GROUP_ORDER` of `secp256k1ref`). -/
def q : Nat :=
  0xFFFFFFFFFFFFFFFFFFFFFFFFFFFFFFFEBAAEDCE6AF48A03BBFD25E8CD0364141

/-- Modelled from the spec: `Scalar(int_from_bytes(b))` of `secp256k1ref`,
"Scalar (encrypted share or share): 32 bytes big-endian, reduced mod `q`". -/
def scalar_from_bytes (b : Bytes) : Nat := from_bytes b % q

/-- The exception kinds raised by the module (Python exception classes,
flattened into one inductive). -/
inductive Error
  | ValueError
  | IndexError
  | AssertionError
  | ThresholdError
  | DuplicateHostpubkeyError
  | SeedError
  | SessionNotFinalizedError
  | InvalidRecoveryDataError
  | OverflowError
  | InvalidContributionError (i : Nat)
  deriving DecidableEq, Repr

/-- `DKGOutput` (from `simplpedpop`): named tuple
`(secshare : Optional[bytes], threshold_pubkey : bytes, pubshares : List[bytes])`. -/
structure DKGOutput where
  secshare : Option Bytes
  threshold_pubkey : Bytes
  pubshares : List Bytes
  deriving DecidableEq, Repr

/-- Modelled from the spec: `encpedpop.ParticipantState`, treated as an opaque
payload by the chilldkg module (it only stores and forwards it). -/
structure EncPState where
  payload : Nat
  deriving DecidableEq, Repr

/-- Modelled from the spec: `encpedpop.ParticipantMsg`, opaque to chilldkg. -/
structure EncPMsg where
  payload : Nat
  deriving DecidableEq, Repr

/-- Modelled from the spec: `encpedpop.CoordinatorMsg`, opaque to chilldkg. -/
structure EncCMsg where
  payload : Nat
  deriving DecidableEq, Repr

/-- Modelled from the spec: the external collaborators of the chilldkg module
(secp256k1 arithmetic, BIP340 Schnorr, tagged hashing, the VSS layer and the
EncPedPop layer).  The spec leaves their internals out of scope, so the
embedding is parameterised over them.  Point-valued results are carried
directly in their compressed 33-byte encoding. -/
structure Prims where
  /-- `schnorr_sign(msg, seckey, aux_rand, challenge_tag)` (BIP340). -/
  schnorr_sign : Bytes → Bytes → Bytes → String → Bytes
  /-- `schnorr_verify(msg, pubkey, sig, challenge_tag)` (BIP340);
  the public key argument is the 32-byte x-only key. -/
  schnorr_verify : Bytes → Bytes → Bytes → String → Bool
  /-- `GE.from_bytes_compressed(b)` succeeds (decodes as a valid point). -/
  point_valid : Bytes → Bool
  /-- `pubkey_gen_plain(seckey)`: the 33-byte compressed public key. -/
  pubkey_gen_plain : Bytes → Bytes
  /-- `prf(seed, tag)` of `chilldkg_ref.util`. -/
  prf : Bytes → String → Bytes
  /-- `tagged_hash_bip_dkg(tag, msg)` of `chilldkg_ref.util`; 32-byte output. -/
  tagged_hash_bip_dkg : String → Bytes → Bytes
  /-- The 32 fresh random bytes drawn by `random_bytes(32)` in
  `certeq_participant_step` (one run of the nondeterministic source). -/
  random32 : Bytes
  /-- `sum_coms.commitment_to_secret().to_bytes_compressed()`: the constant
  term of the commitment polynomial, compressed. -/
  commitment_to_secret : List Bytes → Bytes
  /-- `sum_coms.pubshare(i).to_bytes_compressed()`: the evaluation of the
  commitment at index `i + 1`, compressed. -/
  vss_pubshare : List Bytes → Nat → Bytes
  /-- `encpedpop.serialize_enc_context(t, hostpubkeys)`. -/
  serialize_enc_context : Nat → List Bytes → Bytes
  /-- `encpedpop.derive_session_seed(seed, pubnonce, enc_context)`. -/
  derive_session_seed : Bytes → Bytes → Bytes → Bytes
  /-- `encpedpop.decrypt_sum(seckey, pubkey, pubnonces, sum_ciphertext,
  enc_context, idx)`: a Scalar, or an exception on an undecodable nonce. -/
  decrypt_sum : Bytes → Bytes → List Bytes → Nat → Bytes → Nat → Except Error Nat
  /-- `VSS.generate(seed, t).secshare_for(idx)`: the share Scalar. -/
  vss_secshare_for : Bytes → Nat → Nat → Nat
  /-- `VSSCommitment.verify_secshare(s, pubshare)`: `s·G == pubshare`. -/
  verify_secshare : Nat → Bytes → Bool
  /-- `encpedpop.participant_step2(state, hostseckey, cmsg, enc_secshare)`:
  the participant's DKG output and the base `eq_input`. -/
  encpedpop_participant_step2 :
    EncPState → Bytes → EncCMsg → Nat → Except Error (DKGOutput × Bytes)
  /-- The internals of `encpedpop.coordinator_step(pmsgs, t, hostpubkeys)`:
  the aggregated message, the threshold pubkey and pubshares of the partial
  output, the base `eq_input`, and the aggregated `enc_secshares`. -/
  encpedpop_coordinator_core :
    List EncPMsg → Nat → List Bytes →
      Except Error (EncCMsg × Bytes × List Bytes × Bytes × List Nat)

/-- Modelled from the spec: `encpedpop.coordinator_step` returns the
aggregated `cmsg`, a partial `DKGOutput` with `secshare = None`, the base
`eq_input`, and the list of aggregated encrypted shares. -/
def encpedpop_coordinator_step (P : Prims) (pmsgs : List EncPMsg) (t : Nat)
    (hostpubkeys : List Bytes) :
    Except Error (EncCMsg × DKGOutput × Bytes × List Nat) :=
  match P.encpedpop_coordinator_core pmsgs t hostpubkeys with
  | .error e => .error e
  | .ok (cmsg, tpk, pubshares, eq_input, enc_secshares) =>
    .ok (cmsg, ⟨none, tpk, pubshares⟩, eq_input, enc_secshares)

/-! ## Equality check protocol CertEq -/

/-- `BIP_TAG` of `chilldkg_ref.util`. -/
def BIP_TAG : String := "BIP DKG/"

def CERTEQ_MSG_TAG : String := BIP_TAG ++ "certeq message"

/-- `certeq_message(x, idx) = idx.to_bytes(4, "big")` (the transcript `x` is
ignored by the source). -/
def certeq_message (_x : Bytes) (idx : Nat) : Bytes :=
  be 4 idx

def certeq_participant_step (P : Prims) (hostseckey : Bytes) (idx : Nat)
    (x : Bytes) : Bytes :=
  P.schnorr_sign (certeq_message x idx) hostseckey P.random32 CERTEQ_MSG_TAG

def certeq_cert_len (n : Nat) : Nat := 64 * n

def certeq_verify (P : Prims) (hostpubkeys : List Bytes) (x : Bytes)
    (cert : Bytes) : Bool :=
  let n := hostpubkeys.length
  if cert.length ≠ certeq_cert_len n then
    false
  else
    (List.range n).all fun i =>
      P.schnorr_verify (certeq_message x i)
        (((hostpubkeys.getD i []).drop 1).take 32)
        ((cert.drop (i * 64)).take 64)
        CERTEQ_MSG_TAG

def certeq_coordinator_step (sigs : List Bytes) : Bytes :=
  sigs.flatten

/-! ## Host keys -/

def hostseckey (P : Prims) (seed : Bytes) : Bytes :=
  P.prf seed "chilldkg hostseckey"

def hostkeypair (P : Prims) (seed : Bytes) : Except Error (Bytes × Bytes) :=
  if seed.length ≠ 32 then
    .error .ValueError
  else
    let seckey := hostseckey P seed
    let pubkey := P.pubkey_gen_plain seckey
    .ok (seckey, pubkey)

def hostpubkey (P : Prims) (seed : Bytes) : Except Error Bytes :=
  (hostkeypair P seed).map (·.2)

/-! ## Session input and outputs -/

/-- `SessionParams(hostpubkeys, t)`. -/
structure SessionParams where
  hostpubkeys : List Bytes
  t : Nat
  deriving DecidableEq, Repr

def params_validate (P : Prims) (params : SessionParams) : Except Error Unit :=
  let hostpubkeys := params.hostpubkeys
  let t := params.t
  if ¬(1 ≤ t ∧ t ≤ hostpubkeys.length) then
    .error .ThresholdError
  else
    match hostpubkeys.findIdx? (fun pk => !P.point_valid pk) with
    | some i => .error (.InvalidContributionError i)
    | none =>
      if hostpubkeys.length ≠ hostpubkeys.dedup.length then
        .error .DuplicateHostpubkeyError
      else
        .ok ()

/-- `params_id(params)`; `t.to_bytes(4, "big")` raises `OverflowError` when
`t ≥ 2^32`, and the 32-byte length of the hash is asserted. -/
def params_id (P : Prims) (params : SessionParams) : Except Error Bytes :=
  match params_validate P params with
  | .error e => .error e
  | .ok () =>
  if 2 ^ 32 ≤ params.t then
    .error .OverflowError
  else
    let pid := P.tagged_hash_bip_dkg "params_id"
      (be 4 params.t ++ params.hostpubkeys.flatten)
    if pid.length ≠ 32 then
      .error .AssertionError
    else
      .ok pid

/-! ## Messages -/

structure ParticipantMsg1 where
  enc_pmsg : EncPMsg
  deriving DecidableEq, Repr

structure ParticipantMsg2 where
  sig : Bytes
  deriving DecidableEq, Repr

structure CoordinatorMsg1 where
  enc_cmsg : EncCMsg
  enc_secshares : List Nat
  deriving DecidableEq, Repr

structure CoordinatorMsg2 where
  cert : Bytes
  deriving DecidableEq, Repr

/-- Modelled from the spec: `VSSCommitment.from_bytes_and_t(b, t)` of the
external VSS layer parses `t` consecutive 33-byte compressed points
("Commitment: `t` × 33 bytes concatenated"), failing when a point does not
decode.  The commitment is carried as its list of 33-byte chunks. -/
def VSSCommitment.from_bytes_and_t (P : Prims) (b : Bytes) (t : Nat) :
    Except Error (List Bytes) :=
  let chunks := (List.range t).map fun i => (b.drop (33 * i)).take 33
  if chunks.all P.point_valid then .ok chunks else .error .ValueError

def deserialize_recovery_data (P : Prims) (b : Bytes) :
    Except Error (Nat × List Bytes × List Bytes × List Bytes × List Nat × Bytes) :=
  let rest := b
  -- Read t (4 bytes)
  if rest.length < 4 then .error .ValueError else
  let t := from_bytes (rest.take 4)
  let rest := rest.drop 4
  -- Read sum_coms (33*t bytes)
  if rest.length < 33 * t then .error .ValueError else
  match VSSCommitment.from_bytes_and_t P (rest.take (33 * t)) t with
  | .error e => .error e
  | .ok sum_coms =>
  let rest := rest.drop (33 * t)
  -- Compute n
  let n := rest.length / (33 + 33 + 32 + 64)
  if rest.length % (33 + 33 + 32 + 64) ≠ 0 then .error .ValueError else
  -- Read hostpubkeys (33*n bytes)
  if rest.length < 33 * n then .error .ValueError else
  let hostpubkeys := (List.range n).map fun i => (rest.drop (33 * i)).take 33
  let rest := rest.drop (33 * n)
  -- Read pubnonces (33*n bytes)
  if rest.length < 33 * n then .error .ValueError else
  let pubnonces := (List.range n).map fun i => (rest.drop (33 * i)).take 33
  let rest := rest.drop (33 * n)
  -- Read enc_secshares (32*n bytes)
  if rest.length < 32 * n then .error .ValueError else
  let enc_secshares :=
    (List.range n).map fun i => scalar_from_bytes ((rest.drop (32 * i)).take 32)
  let rest := rest.drop (32 * n)
  -- Read cert
  let cert_len := certeq_cert_len n
  if rest.length < cert_len then .error .ValueError else
  let cert := rest.take cert_len
  let rest := rest.drop cert_len
  if rest.length ≠ 0 then .error .ValueError else
  .ok (t, sum_coms, hostpubkeys, pubnonces, enc_secshares, cert)

/-! ## Participant -/

structure ParticipantState1 where
  params : SessionParams
  idx : Nat
  enc_state : EncPState
  deriving DecidableEq, Repr

structure ParticipantState2 where
  params : SessionParams
  eq_input : Bytes
  dkg_output : DKGOutput
  deriving DecidableEq, Repr

def participant_step2 (P : Prims) (seed : Bytes) (state1 : ParticipantState1)
    (cmsg1 : CoordinatorMsg1) :
    Except Error (ParticipantState2 × ParticipantMsg2) :=
  match hostkeypair P seed with
  | .error e => .error e
  | .ok (hostseckey, _) =>
  let ⟨params, idx, enc_state⟩ := state1
  let ⟨enc_cmsg, enc_secshares⟩ := cmsg1
  -- `enc_secshares[idx]` raises `IndexError` when out of range
  if enc_secshares.length ≤ idx then .error .IndexError else
  match P.encpedpop_participant_step2 enc_state hostseckey enc_cmsg
      (enc_secshares.getD idx 0) with
  | .error e => .error e
  | .ok (dkg_output, eq_input) =>
  -- Include the enc_shares in eq_input to ensure that participants agree on
  -- all shares, which in turn ensures that they have the right recovery data.
  let eq_input := eq_input ++ (enc_secshares.map fun share => be 32 share).flatten
  let state2 : ParticipantState2 := ⟨params, eq_input, dkg_output⟩
  let sig := certeq_participant_step P hostseckey idx eq_input
  .ok (state2, ⟨sig⟩)

def participant_finalize (P : Prims) (state2 : ParticipantState2)
    (cmsg2 : CoordinatorMsg2) : Except Error (DKGOutput × Bytes) :=
  if ¬ certeq_verify P state2.params.hostpubkeys state2.eq_input cmsg2.cert then
    .error .SessionNotFinalizedError
  else
    .ok (state2.dkg_output, state2.eq_input ++ cmsg2.cert)

/-! ## Coordinator -/

structure CoordinatorState where
  params : SessionParams
  eq_input : Bytes
  dkg_output : DKGOutput
  deriving DecidableEq, Repr

def coordinator_step1 (P : Prims) (pmsgs1 : List ParticipantMsg1)
    (params : SessionParams) :
    Except Error (CoordinatorState × CoordinatorMsg1) :=
  match params_validate P params with
  | .error e => .error e
  | .ok () =>
  match encpedpop_coordinator_step P (pmsgs1.map (·.enc_pmsg)) params.t
      params.hostpubkeys with
  | .error e => .error e
  | .ok (enc_cmsg, dkg_output, eq_input, enc_secshares) =>
  let eq_input := eq_input ++ (enc_secshares.map fun share => be 32 share).flatten
  .ok (⟨params, eq_input, dkg_output⟩, ⟨enc_cmsg, enc_secshares⟩)

def coordinator_finalize (P : Prims) (state : CoordinatorState)
    (pmsgs2 : List ParticipantMsg2) :
    Except Error (CoordinatorMsg2 × DKGOutput × Bytes) :=
  let cert := certeq_coordinator_step (pmsgs2.map (·.sig))
  if ¬ certeq_verify P state.params.hostpubkeys state.eq_input cert then
    .error .SessionNotFinalizedError
  else
    .ok (⟨cert⟩, state.dkg_output, state.eq_input ++ cert)

/-! ## Recovery -/

/-- Python truthiness of `seed : Optional[bytes]` in `if seed:`: `None` and
the empty byte string are falsy, every nonempty byte string is truthy. -/
def truthy : Option Bytes → Bool
  | none => false
  | some s => !s.isEmpty

def recover (P : Prims) (seed : Option Bytes) (recovery_data : Bytes) :
    Except Error (DKGOutput × SessionParams) :=
  match deserialize_recovery_data P recovery_data with
  | .error _ => .error .InvalidRecoveryDataError
  | .ok (t, sum_coms, hostpubkeys, pubnonces, enc_secshares, cert) =>
  let n := hostpubkeys.length
  let params : SessionParams := ⟨hostpubkeys, t⟩
  match params_validate P params with
  | .error e => .error e
  | .ok () =>
  -- Verify cert (the source computes this value and discards it)
  let _ := certeq_verify P hostpubkeys (recovery_data.take (64 * n)) cert
  -- Compute threshold pubkey and individual pubshares
  let threshold_pubkey := P.commitment_to_secret sum_coms
  let pubshares := (List.range n).map (P.vss_pubshare sum_coms)
  if truthy seed then
    let s := seed.getD []
    -- Find our hostpubkey
    match hostkeypair P s with
    | .error e => .error e
    | .ok (hostseckey, hostpubkey) =>
    match hostpubkeys.findIdx? (· == hostpubkey) with
    | none => .error .InvalidRecoveryDataError
    | some idx =>
    -- Decrypt share
    let enc_context := P.serialize_enc_context t hostpubkeys
    if pubnonces.length ≤ idx then .error .IndexError else
    let their_pubnonces := pubnonces.eraseIdx idx
    let pubnonce := pubnonces.getD idx []
    let session_seed := P.derive_session_seed s pubnonce enc_context
    if enc_secshares.length ≤ idx then .error .IndexError else
    match P.decrypt_sum hostseckey (hostpubkeys.getD idx [])
        their_pubnonces (enc_secshares.getD idx 0) enc_context idx with
    | .error e => .error e
    | .ok secshare0 =>
    -- Derive my_share
    let my_share := P.vss_secshare_for session_seed t idx
    let secshare := (secshare0 + my_share) % q
    -- This is just a sanity check (an `assert` in the source).
    if ¬ P.verify_secshare secshare (pubshares.getD idx []) then
      .error .AssertionError
    else
      .ok (⟨some (be 32 secshare), threshold_pubkey, pubshares⟩, params)
  else
    .ok (⟨none, threshold_pubkey, pubshares⟩, params)

/-! ## Concrete primitive instances used for evaluation

The functions above are parameterised over the external collaborators.  The
following small concrete instances let the theorems below be evaluated on
concrete inputs. -/

/-- A simple concrete instance of the external primitives: every byte string
is a valid point, every signature verifies, and the derived values are
cheap deterministic stand-ins. -/
def trivPrims : Prims where
  schnorr_sign := fun _ _ _ _ => List.replicate 64 0
  schnorr_verify := fun _ _ _ _ => true
  point_valid := fun _ => true
  pubkey_gen_plain := fun sk => 2 :: sk.take 32
  prf := fun seed _ => seed
  tagged_hash_bip_dkg := fun _ _ => List.replicate 32 0
  random32 := List.replicate 32 0
  commitment_to_secret := fun coms => coms.headD []
  vss_pubshare := fun coms i => i :: coms.flatten.take 32
  serialize_enc_context := fun _ _ => []
  derive_session_seed := fun _ _ _ => []
  decrypt_sum := fun _ _ _ _ _ _ => .ok 0
  vss_secshare_for := fun _ _ _ => 0
  verify_secshare := fun _ _ => true
  encpedpop_participant_step2 := fun _ _ _ _ => .ok (⟨none, [], []⟩, [])
  encpedpop_coordinator_core := fun _ _ _ => .ok (⟨0⟩, [], [], [], [])

/-- `trivPrims` with rejecting Schnorr verification: no signature is valid. -/
def rejectSigPrims : Prims :=
  { trivPrims with schnorr_verify := fun _ _ _ _ => false }

/-- `trivPrims` with a point decoder that accepts exactly the byte strings
whose first byte is `2`. -/
def headPointPrims : Prims :=
  { trivPrims with point_valid := fun b => b.headD 0 == 2 }

/-- A 33-byte commitment chunk (valid under `headPointPrims`). -/
def comChunk : Bytes := 2 :: List.replicate 32 0

/-- A 33-byte host public key (valid under `headPointPrims`). -/
def hpk0 : Bytes := 2 :: List.replicate 32 1

/-- A 33-byte host public key that `headPointPrims` rejects. -/
def badhpk : Bytes := 9 :: List.replicate 32 1

/-- A 33-byte public nonce. -/
def nonce0 : Bytes := 2 :: List.replicate 32 2

/-- A 32-byte encrypted-share chunk, encoding the scalar `5`. -/
def share0 : Bytes := be 32 5

/-- A 64-byte certificate for one participant. -/
def cert0 : Bytes := List.replicate 64 0

/-- Well-formed recovery data for `t = 1`, `n = 1`
(layout `t_be32 ‖ sum_coms ‖ hostpubkeys ‖ pubnonces ‖ enc_secshares ‖ cert`). -/
def recData : Bytes :=
  be 4 1 ++ comChunk ++ hpk0 ++ nonce0 ++ share0 ++ cert0

/-- Recovery data like `recData` but whose host public key does not decode
under `headPointPrims`. -/
def recDataBadHpk : Bytes :=
  be 4 1 ++ comChunk ++ badhpk ++ nonce0 ++ share0 ++ cert0

/-! ## Byte-encoding lemmas -/

theorem be_length (k n : Nat) : (be k n).length = k := by
  induction k generalizing n with
  | zero => rfl
  | succ k ih => simp [be, ih]

theorem from_bytes_append_singleton (l : Bytes) (x : Nat) :
    from_bytes (l ++ [x]) = from_bytes l * 256 + x := by
  simp [from_bytes, List.foldl_append]

theorem from_bytes_be (k n : Nat) : from_bytes (be k n) = n % 256 ^ k := by
  induction k generalizing n with
  | zero => simp [be, from_bytes, Nat.mod_one]
  | succ k ih =>
    rw [be, from_bytes_append_singleton, ih, pow_succ, mul_comm (256 ^ k) 256,
      Nat.mod_mul]
    ring

theorem from_bytes_be_of_lt {k n : Nat} (h : n < 256 ^ k) :
    from_bytes (be k n) = n := by
  rw [from_bytes_be, Nat.mod_eq_of_lt h]

theorem be_inj {k a b : Nat} (ha : a < 256 ^ k) (hb : b < 256 ^ k)
    (h : be k a = be k b) : a = b := by
  have h2 := congrArg from_bytes h
  rwa [from_bytes_be_of_lt ha, from_bytes_be_of_lt hb] at h2

/-- `q` is below `2^256`, so 32 bytes suffice to encode a scalar, and
`scalar_from_bytes` inverts `be 32` on scalars. -/
theorem scalar_from_bytes_be {s : Nat} (h : s < q) :
    scalar_from_bytes (be 32 s) = s := by
  have hq : q < 256 ^ 32 := by norm_num [q]
  rw [scalar_from_bytes, from_bytes_be_of_lt (lt_trans h hq), Nat.mod_eq_of_lt h]

/-! ## Chunking lemmas for the recovery codec -/

theorem flatten_length_const (c : Nat) (L : List Bytes)
    (h : ∀ x ∈ L, x.length = c) : L.flatten.length = c * L.length := by
  induction L with
  | nil => simp
  | cons a L ih =>
    simp only [List.flatten_cons, List.length_append, List.length_cons]
    rw [h a (by simp), ih (fun x hx => h x (by simp [hx]))]
    ring

theorem take_flatten_const (c : Nat) (L : List Bytes) (tail : Bytes)
    (h : ∀ x ∈ L, x.length = c) :
    (L.flatten ++ tail).take (c * L.length) = L.flatten := by
  rw [← flatten_length_const c L h, List.take_left]

theorem drop_flatten_const (c : Nat) (L : List Bytes) (tail : Bytes)
    (h : ∀ x ∈ L, x.length = c) :
    (L.flatten ++ tail).drop (c * L.length) = tail := by
  rw [← flatten_length_const c L h, List.drop_left]

theorem chunks_flatten (c : Nat) (L : List Bytes) (tail : Bytes)
    (h : ∀ x ∈ L, x.length = c) :
    (List.range L.length).map
      (fun i => ((L.flatten ++ tail).drop (c * i)).take c) = L := by
  induction L generalizing tail with
  | nil => simp
  | cons a L ih =>
    have ha : a.length = c := h a (by simp)
    have hL : ∀ x ∈ L, x.length = c := fun x hx => h x (by simp [hx])
    have hdrop : ∀ i : Nat,
        ((a :: L).flatten ++ tail).drop (c * (i + 1)) =
          (L.flatten ++ tail).drop (c * i) := by
      intro i
      rw [List.flatten_cons, List.append_assoc,
        show c * (i + 1) = a.length + c * i by rw [ha]; ring,
        List.drop_append]
    have hhead : (((a :: L).flatten ++ tail).drop (c * 0)).take c = a := by
      rw [List.flatten_cons, List.append_assoc, Nat.mul_zero, List.drop_zero,
        ← ha, List.take_left]
    simp only [List.length_cons, List.range_succ_eq_map, List.map_cons,
      List.map_map, Function.comp_def, Nat.succ_eq_add_one]
    rw [hhead]
    congr 1
    calc (List.range L.length).map
          (fun i => (((a :: L).flatten ++ tail).drop (c * (i + 1))).take c)
        = (List.range L.length).map
            (fun i => ((L.flatten ++ tail).drop (c * i)).take c) := by
          exact List.map_congr_left fun i _ => by rw [hdrop i]
      _ = L := ih tail hL

/-! ## Recovery-codec lemmas -/

/-- A successful parse pins down the byte length `4 + 33t + 162n`, the origin
of `t`, and that the commitment bytes decode. -/
theorem deserialize_ok_shape {P : Prims} {b : Bytes} {t : Nat}
    {sum_coms hostpubkeys pubnonces : List Bytes} {enc_secshares : List Nat}
    {cert : Bytes}
    (h : deserialize_recovery_data P b =
      .ok (t, sum_coms, hostpubkeys, pubnonces, enc_secshares, cert)) :
    t = from_bytes (b.take 4) ∧
    b.length = 4 + 33 * t + 162 * hostpubkeys.length ∧
    sum_coms.length = t ∧
    sum_coms.all P.point_valid = true ∧
    pubnonces.length = hostpubkeys.length ∧
    enc_secshares.length = hostpubkeys.length ∧
    cert.length = 64 * hostpubkeys.length := by
  simp only [deserialize_recovery_data] at h
  split at h
  · exact absurd h (by simp)
  next hc4 =>
  split at h
  · exact absurd h (by simp)
  next hc33 =>
  split at h
  next e heq => exact absurd h (by simp)
  next sc heq =>
  split at h
  · exact absurd h (by simp)
  next hmod =>
  split at h
  · exact absurd h (by simp)
  next hcn1 =>
  split at h
  · exact absurd h (by simp)
  next hcn2 =>
  split at h
  · exact absurd h (by simp)
  next hcn3 =>
  split at h
  · exact absurd h (by simp)
  next hcn4 =>
  split at h
  · exact absurd h (by simp)
  next hrest =>
  -- the returned tuple
  rw [Except.ok.injEq] at h
  obtain ⟨ht, hsc, hhpk, hpn, hsh, hcert⟩ := by
    simpa [Prod.ext_iff] using h
  -- name the intermediate lengths
  have hb4 : 4 ≤ b.length := by omega
  have hsc_ok : sc.all P.point_valid = true ∧
      sc.length = from_bytes (b.take 4) := by
    simp only [VSSCommitment.from_bytes_and_t] at heq
    split at heq
    next hall =>
      rw [Except.ok.injEq] at heq
      subst heq
      constructor
      · exact hall
      · simp
    next => exact absurd heq (by simp)
  refine ⟨ht.symm, ?_, ?_, ?_, ?_, ?_, ?_⟩
  · -- length equation
    subst ht hhpk
    simp only [List.length_drop, List.length_map, List.length_range] at *
    omega
  · rw [← hsc, ← ht]; exact hsc_ok.2
  · rw [← hsc]; exact hsc_ok.1
  · subst hhpk hpn
    simp only [List.length_map, List.length_range, List.length_drop]
  · subst hhpk hsh
    simp only [List.length_map, List.length_range, List.length_drop]
  · subst hhpk hcert
    simp only [certeq_cert_len, List.length_take, List.length_drop,
      List.length_map, List.length_range]
    omega

/-- Parsing the concatenation
`t_be32 ‖ sum_coms ‖ hostpubkeys ‖ pubnonces ‖ enc_secshares ‖ cert`
of well-formed fields returns exactly those fields. -/
theorem deserialize_concat (P : Prims) (t : Nat)
    (sum_coms hostpubkeys pubnonces : List Bytes) (shares : List Nat)
    (cert : Bytes)
    (ht : t < 2 ^ 32)
    (hsct : sum_coms.length = t)
    (hsc33 : ∀ x ∈ sum_coms, x.length = 33)
    (hscv : ∀ x ∈ sum_coms, P.point_valid x = true)
    (hpk33 : ∀ x ∈ hostpubkeys, x.length = 33)
    (hpnn : pubnonces.length = hostpubkeys.length)
    (hpn33 : ∀ x ∈ pubnonces, x.length = 33)
    (hshn : shares.length = hostpubkeys.length)
    (hshq : ∀ s ∈ shares, s < q)
    (hcert : cert.length = 64 * hostpubkeys.length) :
    deserialize_recovery_data P
      (be 4 t ++ (sum_coms.flatten ++ (hostpubkeys.flatten ++
        (pubnonces.flatten ++ ((shares.map (be 32)).flatten ++ cert))))) =
      .ok (t, sum_coms, hostpubkeys, pubnonces, shares, cert) := by
  have ht4 : t < 256 ^ 4 := by
    have : (256 : Nat) ^ 4 = 2 ^ 32 := by norm_num
    omega
  have hM33 : ∀ x ∈ shares.map (be 32), x.length = 32 := by
    intro x hx
    obtain ⟨s, _, rfl⟩ := List.mem_map.mp hx
    exact be_length 32 s
  have hMn : (shares.map (be 32)).length = hostpubkeys.length := by
    rw [List.length_map, hshn]
  have hscf : sum_coms.flatten.length = 33 * t := by
    rw [flatten_length_const 33 sum_coms hsc33, hsct]
  have hpkf : hostpubkeys.flatten.length = 33 * hostpubkeys.length :=
    flatten_length_const 33 hostpubkeys hpk33
  have hpnf : pubnonces.flatten.length = 33 * hostpubkeys.length := by
    rw [flatten_length_const 33 pubnonces hpn33, hpnn]
  have hMf : (shares.map (be 32)).flatten.length = 32 * hostpubkeys.length := by
    rw [flatten_length_const 32 _ hM33, hMn]
  have hR2len : (hostpubkeys.flatten ++ (pubnonces.flatten ++
      ((shares.map (be 32)).flatten ++ cert))).length =
      162 * hostpubkeys.length := by
    simp only [List.length_append, hpkf, hpnf, hMf, hcert]
    ring
  simp only [deserialize_recovery_data]
  rw [if_neg (by simp only [List.length_append, be_length]; omega)]
  rw [List.take_left' (be_length 4 t), List.drop_left' (be_length 4 t),
    from_bytes_be_of_lt ht4]
  rw [if_neg (by simp only [List.length_append, hscf]; omega)]
  have htake_sc : (sum_coms.flatten ++ (hostpubkeys.flatten ++
      (pubnonces.flatten ++ ((shares.map (be 32)).flatten ++ cert)))).take
      (33 * t) = sum_coms.flatten := by
    rw [← hsct]
    exact take_flatten_const 33 sum_coms _ hsc33
  have hdrop_sc : (sum_coms.flatten ++ (hostpubkeys.flatten ++
      (pubnonces.flatten ++ ((shares.map (be 32)).flatten ++ cert)))).drop
      (33 * t) = hostpubkeys.flatten ++
      (pubnonces.flatten ++ ((shares.map (be 32)).flatten ++ cert)) := by
    rw [← hsct]
    exact drop_flatten_const 33 sum_coms _ hsc33
  rw [htake_sc, hdrop_sc]
  have hparse_sc : VSSCommitment.from_bytes_and_t P sum_coms.flatten t =
      .ok sum_coms := by
    have hchunks : (List.range t).map
        (fun i => (sum_coms.flatten.drop (33 * i)).take 33) = sum_coms := by
      have h0 := chunks_flatten 33 sum_coms [] hsc33
      rw [List.append_nil] at h0
      rw [← hsct]
      exact h0
    simp only [VSSCommitment.from_bytes_and_t, hchunks]
    rw [if_pos (List.all_eq_true.mpr hscv)]
  rw [hparse_sc]
  dsimp only
  have h162 : (33 + 33 + 32 + 64 : Nat) = 162 := rfl
  rw [h162, hR2len, Nat.mul_div_cancel_left _ (by norm_num : (0:Nat) < 162)]
  rw [if_neg (by simp [Nat.mul_mod_right])]
  rw [if_neg (by omega)]
  have hchunks_pk : (List.range hostpubkeys.length).map
      (fun i => ((hostpubkeys.flatten ++ (pubnonces.flatten ++
        ((shares.map (be 32)).flatten ++ cert))).drop (33 * i)).take 33) =
      hostpubkeys := chunks_flatten 33 hostpubkeys _ hpk33
  have hdrop_pk : (hostpubkeys.flatten ++ (pubnonces.flatten ++
      ((shares.map (be 32)).flatten ++ cert))).drop
      (33 * hostpubkeys.length) =
      pubnonces.flatten ++ ((shares.map (be 32)).flatten ++ cert) :=
    drop_flatten_const 33 hostpubkeys _ hpk33
  rw [hchunks_pk, hdrop_pk]
  rw [if_neg (by
    simp only [List.length_append, hpnf, hMf, hcert]
    omega)]
  have hchunks_pn : (List.range hostpubkeys.length).map
      (fun i => ((pubnonces.flatten ++
        ((shares.map (be 32)).flatten ++ cert)).drop (33 * i)).take 33) =
      pubnonces := by
    have h0 := chunks_flatten 33 pubnonces
      ((shares.map (be 32)).flatten ++ cert) hpn33
    rw [hpnn] at h0
    exact h0
  have hdrop_pn : (pubnonces.flatten ++
      ((shares.map (be 32)).flatten ++ cert)).drop
      (33 * hostpubkeys.length) =
      (shares.map (be 32)).flatten ++ cert := by
    have h0 := drop_flatten_const 33 pubnonces
      ((shares.map (be 32)).flatten ++ cert) hpn33
    rw [hpnn] at h0
    exact h0
  rw [hchunks_pn, hdrop_pn]
  rw [if_neg (by
    simp only [List.length_append, hMf, hcert]
    omega)]
  have hchunks_sh : (List.range hostpubkeys.length).map
      (fun i => scalar_from_bytes ((((shares.map (be 32)).flatten ++
        cert).drop (32 * i)).take 32)) = shares := by
    have h0 := chunks_flatten 32 (shares.map (be 32)) cert hM33
    rw [hMn] at h0
    have hcomp : (List.range hostpubkeys.length).map
        (fun i => scalar_from_bytes ((((shares.map (be 32)).flatten ++
          cert).drop (32 * i)).take 32)) =
        ((List.range hostpubkeys.length).map
          (fun i => (((shares.map (be 32)).flatten ++
            cert).drop (32 * i)).take 32)).map scalar_from_bytes :=
      (List.map_map scalar_from_bytes
        (fun i => (((shares.map (be 32)).flatten ++ cert).drop (32 * i)).take 32)
        (List.range hostpubkeys.length)).symm
    rw [hcomp, h0, List.map_map]
    exact (List.map_congr_left fun s hs =>
      scalar_from_bytes_be (hshq s hs)).trans (List.map_id shares)
  have hdrop_sh : ((shares.map (be 32)).flatten ++ cert).drop
      (32 * hostpubkeys.length) = cert := by
    have h0 := drop_flatten_const 32 (shares.map (be 32)) cert hM33
    rw [hMn] at h0
    exact h0
  rw [hchunks_sh, hdrop_sh]
  simp only [certeq_cert_len]
  rw [if_neg (by rw [hcert]; omega)]
  rw [← hcert, List.take_length, List.drop_length]
  rw [if_neg (by simp)]

/-! ## CertEq lemmas -/

/-- `certeq_verify` does not depend on the transcript argument: the source's
`certeq_message(x, idx)` discards `x`, and the challenge tag is a constant. -/
theorem certeq_verify_transcript_irrel (P : Prims) (hostpubkeys : List Bytes)
    (x x' cert : Bytes) :
    certeq_verify P hostpubkeys x cert = certeq_verify P hostpubkeys x' cert :=
  rfl

/-- A certificate of the wrong length is rejected up front. -/
theorem certeq_verify_wrong_length (P : Prims) (hostpubkeys : List Bytes)
    (x cert : Bytes) (h : cert.length ≠ 64 * hostpubkeys.length) :
    certeq_verify P hostpubkeys x cert = false := by
  simp only [certeq_verify, certeq_cert_len]
  rw [if_pos h]

/-! ## First-failing-index lemmas for `findIdx?` -/

theorem findIdx?_cons_eq {α : Type} (p : α → Bool) (a : α) (l : List α) :
    (a :: l).findIdx? p = if p a then some 0 else (l.findIdx? p).map (· + 1) := by
  simp [List.findIdx?_cons, List.findIdx?_succ]

theorem findIdx?_eq_some_of_first {α : Type} (p : α → Bool) (d : α)
    (l : List α) (i : Nat) (hi : i < l.length) (hpi : p (l.getD i d) = true)
    (hj : ∀ j, j < i → p (l.getD j d) = false) :
    l.findIdx? p = some i := by
  induction l generalizing i with
  | nil => simp at hi
  | cons a l ih =>
    cases i with
    | zero =>
      rw [findIdx?_cons_eq, if_pos (by simpa using hpi)]
    | succ i =>
      have ha : p a = false := by simpa using hj 0 (Nat.succ_pos i)
      rw [findIdx?_cons_eq, if_neg (by simp [ha])]
      have hrec : l.findIdx? p = some i :=
        ih i (by simpa using hi) (by simpa using hpi)
          (fun j hji => by simpa using hj (j + 1) (by omega))
      rw [hrec]
      rfl

/-! ## Claim C2 -/

/-- C2: `certeq_verify` rejects certificates of the wrong length without
consulting the signature verifier; but, contrary to the claim, its result is
entirely independent of the transcript `x`: a certificate valid under `x`
stays valid under any `x' ≠ x`, because `certeq_message` discards the
transcript and the challenge tag is a per-protocol constant. -/
theorem C2_certeq_transcript_not_bound :
    (∀ (P : Prims) (hostpubkeys : List Bytes) (x cert : Bytes),
      cert.length ≠ 64 * hostpubkeys.length →
        certeq_verify P hostpubkeys x cert = false) ∧
    (∀ (P : Prims) (hostpubkeys : List Bytes) (x x' cert : Bytes),
      certeq_verify P hostpubkeys x cert = certeq_verify P hostpubkeys x' cert) ∧
    certeq_verify trivPrims [hpk0] ([] : Bytes) cert0 = true ∧
    certeq_verify trivPrims [hpk0] [1] cert0 = true ∧
    ([] : Bytes) ≠ [1] := by
  refine ⟨?_, ?_, by decide, by decide, by decide⟩
  · intro P hostpubkeys x cert h
    exact certeq_verify_wrong_length P hostpubkeys x cert h
  · intro P hostpubkeys x x' cert
    exact certeq_verify_transcript_irrel P hostpubkeys x x' cert

/-- C2, witness: the length check at a concrete input. -/
theorem C2_certeq_transcript_not_bound_witness :
    certeq_verify trivPrims [hpk0] ([] : Bytes) ([] : Bytes) = false :=
  C2_certeq_transcript_not_bound.1 trivPrims [hpk0] [] [] (by decide)

/-! ## Claim C1 -/

/-- C1: in `recover`, the result of the certificate re-verification is
computed but never checked.  At `recData`, under primitives whose Schnorr
verifier rejects every signature, the certificate fails `certeq_verify`
against every transcript (in particular against `recovery_data[: 64n]` and
against the prefix excluding the certificate), yet `recover` returns
normally. -/
theorem C1_recover_ignores_certificate :
    (∀ x : Bytes, certeq_verify rejectSigPrims [hpk0] x cert0 = false) ∧
    recover rejectSigPrims none recData =
      .ok (⟨none, comChunk, [0 :: comChunk.take 32]⟩, ⟨[hpk0], 1⟩) := by
  refine ⟨?_, by decide⟩
  intro x
  rw [certeq_verify_transcript_irrel rejectSigPrims [hpk0] x [] cert0]
  decide

/-! ## Claim C3 -/

/-- C3: failures of `deserialize_recovery_data` are wrapped into
`InvalidRecoveryDataError`, but — contrary to the claim — a host public key
that fails to decode escapes as `InvalidContributionError`, because
`params_validate` runs outside the wrapping handler. -/
theorem C3_recover_error_kinds :
    (∀ (P : Prims) (seed : Option Bytes) (b : Bytes) (e : Error),
      deserialize_recovery_data P b = .error e →
        recover P seed b = .error .InvalidRecoveryDataError) ∧
    recover headPointPrims none recDataBadHpk =
      .error (.InvalidContributionError 0) ∧
    headPointPrims.point_valid badhpk = false ∧
    Error.InvalidContributionError 0 ≠ Error.InvalidRecoveryDataError := by
  refine ⟨?_, by decide, by decide, by decide⟩
  intro P seed b e h
  unfold recover
  rw [h]

/-- C3, witness: a too-short blob is wrapped into `InvalidRecoveryDataError`. -/
theorem C3_recover_error_kinds_witness :
    recover headPointPrims none [] = .error .InvalidRecoveryDataError :=
  C3_recover_error_kinds.1 headPointPrims none [] .ValueError rfl

/-! ## Claim C10 -/

/-- C10: `recover` with the empty (falsy, non-`None`) seed takes the
coordinator path: it behaves exactly like `recover` with no seed and never
reaches the 32-byte seed-length check, although `hostkeypair` (used by every
other seed-consuming operation) rejects the empty seed. -/
theorem C10_recover_empty_seed :
    (∀ (P : Prims) (b : Bytes), recover P (some []) b = recover P none b) ∧
    (∀ P : Prims, hostkeypair P [] = .error .ValueError) ∧
    recover headPointPrims (some []) recData =
      .ok (⟨none, comChunk, [0 :: comChunk.take 32]⟩, ⟨[hpk0], 1⟩) := by
  refine ⟨?_, fun P => rfl, by decide⟩
  intro P b
  unfold recover
  cases hd : deserialize_recovery_data P b with
  | error e => rfl
  | ok val =>
    obtain ⟨t, sum_coms, hostpubkeys, pubnonces, enc_secshares, cert⟩ := val
    cases hv : params_validate P ⟨hostpubkeys, t⟩ with
    | error e => rfl
    | ok u => cases u; rfl

/-! ## Claim C5 -/

/-- C5: `deserialize_recovery_data` succeeds only on byte strings of length
exactly `4 + 33t + 162n` (with `t` read from the first 4 bytes and
`n = hostpubkeys.length`) whose commitment bytes decode; and parsing the
concatenation `t_be32 ‖ sum_coms ‖ hostpubkeys ‖ pubnonces ‖ enc_secshares ‖
cert` of well-formed fields returns exactly those fields. -/
theorem C5_recovery_codec (P : Prims) (b : Bytes) (t : Nat)
    (sum_coms hostpubkeys pubnonces : List Bytes) (enc_secshares : List Nat)
    (cert : Bytes) :
    (deserialize_recovery_data P b =
        .ok (t, sum_coms, hostpubkeys, pubnonces, enc_secshares, cert) →
      b.length = 4 + 33 * t + 162 * hostpubkeys.length ∧
      t = from_bytes (b.take 4) ∧
      sum_coms.all P.point_valid = true) ∧
    (t < 2 ^ 32 →
      sum_coms.length = t →
      (∀ x ∈ sum_coms, x.length = 33) →
      (∀ x ∈ sum_coms, P.point_valid x = true) →
      (∀ x ∈ hostpubkeys, x.length = 33) →
      pubnonces.length = hostpubkeys.length →
      (∀ x ∈ pubnonces, x.length = 33) →
      enc_secshares.length = hostpubkeys.length →
      (∀ s ∈ enc_secshares, s < q) →
      cert.length = 64 * hostpubkeys.length →
      deserialize_recovery_data P
        (be 4 t ++ (sum_coms.flatten ++ (hostpubkeys.flatten ++
          (pubnonces.flatten ++
            ((enc_secshares.map (be 32)).flatten ++ cert))))) =
        .ok (t, sum_coms, hostpubkeys, pubnonces, enc_secshares, cert)) := by
  constructor
  · intro h
    obtain ⟨h1, h2, _, h4, _⟩ := deserialize_ok_shape h
    exact ⟨h2, h1, h4⟩
  · intro ht h1 h2 h3 h4 h5 h6 h7 h8 h9
    exact deserialize_concat P t sum_coms hostpubkeys pubnonces enc_secshares
      cert ht h1 h2 h3 h4 h5 h6 h7 h8 h9

/-- C5, witness: round trip at `t = 1`, `n = 1`, share scalar `5`. -/
theorem C5_recovery_codec_witness :
    deserialize_recovery_data headPointPrims
      (be 4 1 ++ ([comChunk].flatten ++ ([hpk0].flatten ++
        ([nonce0].flatten ++ (([5].map (be 32)).flatten ++ cert0))))) =
      .ok (1, [comChunk], [hpk0], [nonce0], [5], cert0) :=
  (C5_recovery_codec headPointPrims [] 1 [comChunk] [hpk0] [nonce0] [5]
      cert0).2
    (by decide) (by decide) (by decide) (by decide) (by decide) (by decide)
    (by decide) (by decide) (by decide) (by decide)

/-! ## Claim C4 -/

/-- `params_validate` accepts as soon as the threshold is in range, all host
public keys decode and there are no duplicates — with no condition on the
size of `t`. -/
theorem params_validate_ok (P : Prims) (hostpubkeys : List Bytes) (t : Nat)
    (hth : 1 ≤ t ∧ t ≤ hostpubkeys.length)
    (hv : ∀ pk ∈ hostpubkeys, P.point_valid pk = true)
    (hnd : hostpubkeys.Nodup) :
    params_validate P ⟨hostpubkeys, t⟩ = .ok () := by
  simp only [params_validate]
  rw [if_neg (not_not_intro hth),
    List.findIdx?_eq_none_iff.mpr (fun x hx => by simp [hv x hx])]
  dsimp only
  rw [if_neg (fun hne => hne (by rw [List.dedup_eq_self.mpr hnd]))]

/-- C4 (amended): `params_validate` raises `ThresholdError` exactly when
`1 ≤ t ≤ n` fails; raises `InvalidContributionError i` when entry `i` is the
first host public key failing to decode; raises `DuplicateHostpubkeyError`
when all entries decode but there are duplicates; and returns normally on
every params passing those three checks — with no bound on `t` beyond
`t ≤ n`.  The overflow error for `t ≥ 2^32` is raised by `params_id` (when
serializing `t` into 4 bytes), not by `params_validate`. -/
theorem C4_params_validate_amended (P : Prims) (params : SessionParams) :
    (params_validate P params = .error .ThresholdError ↔
      ¬(1 ≤ params.t ∧ params.t ≤ params.hostpubkeys.length)) ∧
    ((1 ≤ params.t ∧ params.t ≤ params.hostpubkeys.length) →
      ∀ i, i < params.hostpubkeys.length →
        P.point_valid (params.hostpubkeys.getD i []) = false →
        (∀ j, j < i → P.point_valid (params.hostpubkeys.getD j []) = true) →
        params_validate P params = .error (.InvalidContributionError i)) ∧
    ((1 ≤ params.t ∧ params.t ≤ params.hostpubkeys.length) →
      (∀ pk ∈ params.hostpubkeys, P.point_valid pk = true) →
      ¬params.hostpubkeys.Nodup →
      params_validate P params = .error .DuplicateHostpubkeyError) ∧
    ((1 ≤ params.t ∧ params.t ≤ params.hostpubkeys.length) →
      (∀ pk ∈ params.hostpubkeys, P.point_valid pk = true) →
      params.hostpubkeys.Nodup →
      params_validate P params = .ok ()) ∧
    ((∀ pk ∈ params.hostpubkeys, P.point_valid pk = true) →
      params.hostpubkeys.Nodup →
      (params_id P params = .error .OverflowError ↔
        (1 ≤ params.t ∧ params.t ≤ params.hostpubkeys.length) ∧
          2 ^ 32 ≤ params.t)) := by
  obtain ⟨hostpubkeys, t⟩ := params
  dsimp only
  have hfind_none : (∀ pk ∈ hostpubkeys, P.point_valid pk = true) →
      hostpubkeys.findIdx? (fun pk => !P.point_valid pk) = none := fun hv =>
    List.findIdx?_eq_none_iff.mpr (fun x hx => by simp [hv x hx])
  have hok : (1 ≤ t ∧ t ≤ hostpubkeys.length) →
      (∀ pk ∈ hostpubkeys, P.point_valid pk = true) →
      hostpubkeys.Nodup →
      params_validate P ⟨hostpubkeys, t⟩ = .ok () := fun hth hv hnd =>
    params_validate_ok P hostpubkeys t hth hv hnd
  refine ⟨?_, ?_, ?_, hok, ?_⟩
  · by_cases hth : 1 ≤ t ∧ t ≤ hostpubkeys.length
    · simp only [params_validate]
      rw [if_neg (not_not_intro hth)]
      constructor
      · intro h
        exfalso
        split at h
        · simp at h
        · split at h
          · simp at h
          · simp at h
      · intro h
        exact absurd hth h
    · simp only [params_validate]
      rw [if_pos hth]
      simp [hth]
  · intro hth i hi hpi hj
    simp only [params_validate]
    rw [if_neg (not_not_intro hth),
      findIdx?_eq_some_of_first (fun pk => !P.point_valid pk) [] hostpubkeys i
        hi (by simp only [hpi, Bool.not_false])
        (fun j hji => by simp only [hj j hji, Bool.not_true])]
  · intro hth hv hnd
    simp only [params_validate]
    rw [if_neg (not_not_intro hth), hfind_none hv]
    dsimp only
    rw [if_pos (fun heq => hnd (List.dedup_eq_self.mp
      ((List.dedup_sublist _).eq_of_length heq.symm)))]
  · intro hv hnd
    by_cases hth : 1 ≤ t ∧ t ≤ hostpubkeys.length
    · simp only [params_id]
      rw [hok hth hv hnd]
      dsimp only
      by_cases hov : 2 ^ 32 ≤ t
      · rw [if_pos hov]
        exact iff_of_true rfl ⟨hth, hov⟩
      · rw [if_neg hov]
        constructor
        · intro h
          exfalso
          split at h
          · simp at h
          · simp at h
        · intro h
          exact absurd h.2 hov
    · have hth_err : params_validate P ⟨hostpubkeys, t⟩ =
          .error .ThresholdError := by
        simp only [params_validate]
        rw [if_pos hth]
      simp only [params_id]
      rw [hth_err]
      simp [hth]

/-- C4, counterexample to the claim as stated: at `t = 2^32` with `2^32`
distinct valid host public keys, `params_validate` returns normally instead
of raising an overflow error. -/
theorem C4_params_validate_counterexample :
    2 ^ 32 ≤ (2 ^ 32 : Nat) ∧
    params_validate trivPrims ⟨(List.range (2 ^ 32)).map (be 33), 2 ^ 32⟩ =
      .ok () := by
  refine ⟨le_refl _, ?_⟩
  have hlen : ((List.range (2 ^ 32)).map (be 33)).length = 2 ^ 32 := by simp
  have hnd : ((List.range (2 ^ 32)).map (be 33)).Nodup := by
    refine List.Nodup.map_on ?_ (List.nodup_range _)
    intro a ha b hb hab
    have hle : (2 : Nat) ^ 32 ≤ 256 ^ 33 := by norm_num
    exact be_inj (lt_of_lt_of_le (List.mem_range.mp ha) hle)
      (lt_of_lt_of_le (List.mem_range.mp hb) hle) hab
  exact params_validate_ok trivPrims _ _ ⟨by norm_num, by rw [hlen]⟩
    (fun pk _ => rfl) hnd

/-- C4, witness: all branches of the amended statement at concrete inputs. -/
theorem C4_params_validate_amended_witness :
    params_validate headPointPrims ⟨[hpk0], 1⟩ = .ok () ∧
    params_validate headPointPrims ⟨[hpk0], 2⟩ = .error .ThresholdError ∧
    params_validate headPointPrims ⟨[hpk0, badhpk], 1⟩ =
      .error (.InvalidContributionError 1) ∧
    params_validate headPointPrims ⟨[hpk0, hpk0], 1⟩ =
      .error .DuplicateHostpubkeyError ∧
    params_id headPointPrims ⟨[hpk0], 1⟩ ≠ .error .OverflowError :=
  ⟨(C4_params_validate_amended headPointPrims ⟨[hpk0], 1⟩).2.2.2.1
      (by decide) (by decide) (by decide),
   ((C4_params_validate_amended headPointPrims ⟨[hpk0], 2⟩).1).mpr (by decide),
   (C4_params_validate_amended headPointPrims ⟨[hpk0, badhpk], 1⟩).2.1
      (by decide) 1 (by decide) (by decide) (by decide),
   (C4_params_validate_amended headPointPrims ⟨[hpk0, hpk0], 1⟩).2.2.1
      (by decide) (by decide) (by decide),
   fun h => absurd (((C4_params_validate_amended headPointPrims
      ⟨[hpk0], 1⟩).2.2.2.2 (by decide) (by decide)).mp h) (by decide)⟩

/-! ## Claim C6 -/

/-- C6: `participant_finalize` raises `SessionNotFinalizedError` exactly when
the certificate fails `certeq_verify` against the stored `eq_input`; on
success it returns the stored DKG output unchanged together with the recovery
data `eq_input ‖ cert`.  (The embedding is a pure function of `state2`, which
it does not modify.) -/
theorem C6_participant_finalize (P : Prims) (state2 : ParticipantState2)
    (cmsg2 : CoordinatorMsg2) :
    (participant_finalize P state2 cmsg2 = .error .SessionNotFinalizedError ↔
      certeq_verify P state2.params.hostpubkeys state2.eq_input cmsg2.cert =
        false) ∧
    (certeq_verify P state2.params.hostpubkeys state2.eq_input cmsg2.cert =
        true →
      participant_finalize P state2 cmsg2 =
        .ok (state2.dkg_output, state2.eq_input ++ cmsg2.cert)) := by
  unfold participant_finalize
  by_cases h : certeq_verify P state2.params.hostpubkeys state2.eq_input
      cmsg2.cert = true
  · rw [if_neg (not_not_intro h)]
    simp [h]
  · rw [if_pos h]
    simp at h
    simp [h]

/-- C6, witness: success at a concrete state and certificate. -/
theorem C6_participant_finalize_witness :
    participant_finalize trivPrims ⟨⟨[hpk0], 1⟩, [], ⟨none, [], []⟩⟩ ⟨cert0⟩ =
      .ok (⟨none, [], []⟩, cert0) :=
  (C6_participant_finalize trivPrims ⟨⟨[hpk0], 1⟩, [], ⟨none, [], []⟩⟩
    ⟨cert0⟩).2 (by decide)

/-! ## Claim C7 -/

/-- C7: `coordinator_finalize` builds the certificate as the concatenation of
the participants' signatures in order (of length `64n` when each signature is
64 bytes), raises `SessionNotFinalizedError` iff that certificate fails
`certeq_verify` against the stored `eq_input`, and on success returns
`CoordinatorMsg2` with that certificate, the stored DKG output, and recovery
data `eq_input ‖ cert`; states produced by `coordinator_step1` store a DKG
output whose `secshare` is `None`. -/
theorem C7_coordinator_finalize (P : Prims) (state : CoordinatorState)
    (pmsgs2 : List ParticipantMsg2) :
    (coordinator_finalize P state pmsgs2 = .error .SessionNotFinalizedError ↔
      certeq_verify P state.params.hostpubkeys state.eq_input
        (certeq_coordinator_step (pmsgs2.map (·.sig))) = false) ∧
    (certeq_verify P state.params.hostpubkeys state.eq_input
        (certeq_coordinator_step (pmsgs2.map (·.sig))) = true →
      coordinator_finalize P state pmsgs2 =
        .ok (⟨certeq_coordinator_step (pmsgs2.map (·.sig))⟩, state.dkg_output,
          state.eq_input ++ certeq_coordinator_step (pmsgs2.map (·.sig)))) ∧
    ((∀ m ∈ pmsgs2, m.sig.length = 64) →
      (certeq_coordinator_step (pmsgs2.map (·.sig))).length =
        64 * pmsgs2.length) ∧
    (∀ (pmsgs1 : List ParticipantMsg1) (params : SessionParams)
        (cstate : CoordinatorState) (cmsg1 : CoordinatorMsg1),
      coordinator_step1 P pmsgs1 params = .ok (cstate, cmsg1) →
      cstate.dkg_output.secshare = none) := by
  refine ⟨?_, ?_, ?_, ?_⟩
  · unfold coordinator_finalize
    by_cases h : certeq_verify P state.params.hostpubkeys state.eq_input
        (certeq_coordinator_step (pmsgs2.map (·.sig))) = true
    · rw [if_neg (not_not_intro h)]
      simp [h]
    · rw [if_pos h]
      simp at h
      simp [h]
  · intro h
    unfold coordinator_finalize
    rw [if_neg (not_not_intro h)]
  · intro h
    have h64 : ∀ x ∈ pmsgs2.map (·.sig), x.length = 64 := by
      intro x hx
      obtain ⟨m, hm, rfl⟩ := List.mem_map.mp hx
      exact h m hm
    simp only [certeq_coordinator_step]
    rw [flatten_length_const 64 _ h64, List.length_map]
  · intro pmsgs1 params cstate cmsg1 h
    simp only [coordinator_step1] at h
    split at h
    · exact absurd h (by simp)
    split at h
    · exact absurd h (by simp)
    next enc_cmsg dkg_output eq_input enc_secshares heq =>
      simp only [encpedpop_coordinator_step] at heq
      split at heq
      · exact absurd heq (by simp)
      next cmsg tpk pubshares eqi shares heq2 =>
        rw [Except.ok.injEq] at h heq
        obtain ⟨-, hd, -, -⟩ := by simpa [Prod.ext_iff] using heq
        rw [Prod.mk.injEq] at h
        obtain ⟨h1, -⟩ := h
        rw [← h1, ← hd]

/-- C7, witness: success, certificate length, and `secshare = None` at
concrete inputs. -/
theorem C7_coordinator_finalize_witness :
    coordinator_finalize trivPrims ⟨⟨[hpk0], 1⟩, [], ⟨none, [], []⟩⟩
      [⟨cert0⟩] = .ok (⟨cert0⟩, ⟨none, [], []⟩, cert0) ∧
    (certeq_coordinator_step [cert0]).length = 64 * 1 ∧
    (⟨⟨[hpk0], 1⟩, [], ⟨none, [], []⟩⟩ :
      CoordinatorState).dkg_output.secshare = none :=
  ⟨(C7_coordinator_finalize trivPrims ⟨⟨[hpk0], 1⟩, [], ⟨none, [], []⟩⟩
      [⟨cert0⟩]).2.1 (by decide),
   (C7_coordinator_finalize trivPrims ⟨⟨[hpk0], 1⟩, [], ⟨none, [], []⟩⟩
      [⟨cert0⟩]).2.2.1 (by decide),
   (C7_coordinator_finalize trivPrims ⟨⟨[hpk0], 1⟩, [], ⟨none, [], []⟩⟩
      [⟨cert0⟩]).2.2.2 [] ⟨[hpk0], 1⟩ ⟨⟨[hpk0], 1⟩, [], ⟨none, [], []⟩⟩
      ⟨⟨0⟩, []⟩ (by decide)⟩

/-! ## Claim C8 -/

/-- C8: `participant_step2` and `coordinator_step1` extend the EncPedPop
`eq_input` with the identical byte string — the concatenation of the shares,
each serialized as 32 big-endian bytes — so equal base transcripts and equal
share lists yield byte-for-byte equal stored CertEq transcripts. -/
theorem C8_eq_input_agreement (P : Prims) (seed : Bytes)
    (state1 : ParticipantState1) (cmsg1 : CoordinatorMsg1)
    (pmsgs1 : List ParticipantMsg1) (cparams : SessionParams)
    (state2 : ParticipantState2) (pmsg2 : ParticipantMsg2)
    (cstate : CoordinatorState) (cmsg1' : CoordinatorMsg1)
    (pout cout : DKGOutput) (peq ceq : Bytes) (ccmsg : EncCMsg)
    (cshares : List Nat)
    (h1 : participant_step2 P seed state1 cmsg1 = .ok (state2, pmsg2))
    (h2 : coordinator_step1 P pmsgs1 cparams = .ok (cstate, cmsg1'))
    (h3 : P.encpedpop_participant_step2 state1.enc_state (hostseckey P seed)
      cmsg1.enc_cmsg (cmsg1.enc_secshares.getD state1.idx 0) = .ok (pout, peq))
    (h4 : encpedpop_coordinator_step P (pmsgs1.map (·.enc_pmsg)) cparams.t
      cparams.hostpubkeys = .ok (ccmsg, cout, ceq, cshares))
    (h5 : peq = ceq) (h6 : cmsg1.enc_secshares = cshares) :
    state2.eq_input = cstate.eq_input ∧
    state2.eq_input =
      peq ++ (cmsg1.enc_secshares.map fun share => be 32 share).flatten := by
  obtain ⟨params, idx, enc_state⟩ := state1
  obtain ⟨enc_cmsg, enc_secshares⟩ := cmsg1
  dsimp only at h3
  simp only [participant_step2] at h1
  split at h1
  · exact absurd h1 (by simp)
  next sk pk2 heqk =>
  split at h1
  · exact absurd h1 (by simp)
  split at h1
  · exact absurd h1 (by simp)
  next dkg eqin heq3 =>
  -- the secret key bound by the `hostkeypair` match is `hostseckey P seed`
  have hsk : sk = hostseckey P seed := by
    simp only [hostkeypair] at heqk
    split at heqk
    · exact absurd heqk (by simp)
    · rw [Except.ok.injEq, Prod.mk.injEq] at heqk
      exact heqk.1.symm
  rw [hsk] at heq3
  rw [heq3, Except.ok.injEq, Prod.mk.injEq] at h3
  obtain ⟨-, hpe⟩ := h3
  simp only [coordinator_step1] at h2
  split at h2
  · exact absurd h2 (by simp)
  split at h2
  · exact absurd h2 (by simp)
  next cenc cdkg ceqin cshs heq4 =>
  rw [heq4, Except.ok.injEq, Prod.mk.injEq, Prod.mk.injEq, Prod.mk.injEq] at h4
  obtain ⟨-, -, hce, hcs⟩ := h4
  rw [Except.ok.injEq, Prod.mk.injEq] at h1 h2
  obtain ⟨hst, -⟩ := h1
  obtain ⟨hcst, -⟩ := h2
  rw [← hst, ← hcst]
  dsimp only
  dsimp only at h6
  constructor
  · rw [hpe, hce, h5, h6, hcs]
  · rw [hpe]

/-- C8, witness: a concrete session where participant and coordinator store
the same transcript. -/
theorem C8_eq_input_agreement_witness :
    (⟨⟨[hpk0], 1⟩, [] ++ ((([0] : List Nat)).map fun share => be 32 share).flatten,
        ⟨none, [], []⟩⟩ : ParticipantState2).eq_input =
      (⟨⟨[hpk0], 1⟩, [] ++ ((([0] : List Nat)).map fun share => be 32 share).flatten,
        ⟨none, [], []⟩⟩ : CoordinatorState).eq_input :=
  (C8_eq_input_agreement
    { trivPrims with
        encpedpop_coordinator_core := fun _ _ _ => .ok (⟨0⟩, [], [], [], [0]) }
    (List.replicate 32 0) ⟨⟨[hpk0], 1⟩, 0, ⟨0⟩⟩ ⟨⟨0⟩, [0]⟩ [] ⟨[hpk0], 1⟩
    ⟨⟨[hpk0], 1⟩, [] ++ ((([0] : List Nat)).map fun share => be 32 share).flatten,
      ⟨none, [], []⟩⟩
    ⟨List.replicate 64 0⟩
    ⟨⟨[hpk0], 1⟩, [] ++ ((([0] : List Nat)).map fun share => be 32 share).flatten,
      ⟨none, [], []⟩⟩
    ⟨⟨0⟩, [0]⟩ ⟨none, [], []⟩ ⟨none, [], []⟩ [] [] ⟨0⟩ [0]
    (by decide) (by decide) (by decide) (by decide) (by decide) (by decide)).1

/-! ## Claim C9 -/

/-- C9: on well-formed recovery data, `recover` with no seed returns a
`DKGOutput` with `secshare = None`; with a 32-byte seed whose derived host
public key is not among the recovered host public keys it raises
`InvalidRecoveryDataError`; and every successful recovery — with or without a
seed — returns the threshold pubkey `commitment_to_secret(sum_coms)` and the
pubshares `sum_coms.pubshare(i)`. -/
theorem C9_recover_outputs (P : Prims) (b : Bytes) (t : Nat)
    (sum_coms hostpubkeys pubnonces : List Bytes) (enc_secshares : List Nat)
    (cert : Bytes)
    (hparse : deserialize_recovery_data P b =
      .ok (t, sum_coms, hostpubkeys, pubnonces, enc_secshares, cert))
    (hvalid : params_validate P ⟨hostpubkeys, t⟩ = .ok ()) :
    (recover P none b =
      .ok (⟨none, P.commitment_to_secret sum_coms,
        (List.range hostpubkeys.length).map (P.vss_pubshare sum_coms)⟩,
        ⟨hostpubkeys, t⟩)) ∧
    (∀ s : Bytes, s.length = 32 →
      P.pubkey_gen_plain (hostseckey P s) ∉ hostpubkeys →
      recover P (some s) b = .error .InvalidRecoveryDataError) ∧
    (∀ (seed : Option Bytes) (out : DKGOutput) (ps : SessionParams),
      recover P seed b = .ok (out, ps) →
      out.threshold_pubkey = P.commitment_to_secret sum_coms ∧
      out.pubshares =
        (List.range hostpubkeys.length).map (P.vss_pubshare sum_coms) ∧
      ps = ⟨hostpubkeys, t⟩) := by
  refine ⟨?_, ?_, ?_⟩
  · simp only [recover]
    rw [hparse]
    dsimp only
    rw [hvalid]
    dsimp only
    rw [if_neg (by simp [truthy])]
  · intro s hs hnm
    have hne : s ≠ [] := by
      intro h
      rw [h] at hs
      simp at hs
    have htr : truthy (some s) = true := by
      simp [truthy, hne]
    have hkp : hostkeypair P s =
        .ok (hostseckey P s, P.pubkey_gen_plain (hostseckey P s)) := by
      simp only [hostkeypair]
      rw [if_neg (not_not_intro hs)]
    have hfind : hostpubkeys.findIdx?
        (· == P.pubkey_gen_plain (hostseckey P s)) = none :=
      List.findIdx?_eq_none_iff.mpr fun x hx => by
        simp only [beq_eq_false_iff_ne, ne_eq]
        intro hxe
        exact hnm (hxe ▸ hx)
    simp only [recover]
    rw [hparse]
    dsimp only
    rw [hvalid]
    dsimp only
    rw [if_pos htr]
    simp only [Option.getD_some]
    rw [hkp]
    dsimp only
    rw [hfind]
  · intro seed out ps h
    simp only [recover] at h
    rw [hparse] at h
    dsimp only at h
    rw [hvalid] at h
    dsimp only at h
    split at h
    · -- seed provided: walk the participant path
      split at h
      · exact absurd h (by simp)
      split at h
      · exact absurd h (by simp)
      next idx hidx =>
      split at h
      · exact absurd h (by simp)
      split at h
      · exact absurd h (by simp)
      split at h
      · exact absurd h (by simp)
      split at h
      · exact absurd h (by simp)
      rw [Except.ok.injEq, Prod.mk.injEq] at h
      obtain ⟨ho, hp⟩ := h
      rw [← ho, ← hp]
      exact ⟨rfl, rfl, rfl⟩
    · rw [Except.ok.injEq, Prod.mk.injEq] at h
      obtain ⟨ho, hp⟩ := h
      rw [← ho, ← hp]
      exact ⟨rfl, rfl, rfl⟩

/-- C9, witness: coordinator recovery succeeds with `secshare = None`, and a
non-matching 32-byte seed is rejected, at concrete recovery data. -/
theorem C9_recover_outputs_witness :
    recover headPointPrims none recData =
      .ok (⟨none, comChunk, [0 :: comChunk.take 32]⟩, ⟨[hpk0], 1⟩) ∧
    recover headPointPrims (some (List.replicate 32 7)) recData =
      .error .InvalidRecoveryDataError :=
  ⟨(C9_recover_outputs headPointPrims recData 1 [comChunk] [hpk0] [nonce0]
      [5] cert0 rfl (by decide)).1,
   (C9_recover_outputs headPointPrims recData 1 [comChunk] [hpk0] [nonce0]
      [5] cert0 rfl (by decide)).2.1 (List.replicate 32 7) (by decide)
      (by decide)⟩

end ChillDKG
